import Mathlib

/-!
# Verification of the `magic-rust` card-catalog client

A shallow embedding of the repository's pure logic, with theorems checking
the specification's claims against it.

* `src/mtg_cards/src/display_cards.rs` — text layout (`divider`, `cols`, `wrap`);
* `src/mtg_cards/src/lib.rs`           — the `Card` record, its serde defaults,
  its `Display` rendering, and the `from_response` wrappers;
* `src/mtg_cards/src/header_cards.rs`  — `MTGHeader::from_response`;
* `src/mtg_api/src/lib.rs`             — URL construction and `check_for_empty`.

Text is modelled as `List Char` (the layout code of `display_cards.rs`
iterates over `chars()`; the byte/char length distinction only matters off
the ASCII plane and is orthogonal to every claim considered here).
Fallible Rust code returning `Result` is embedded as `Except`.
-/

set_option autoImplicit false

namespace MagicRust

/-! ## Text layout: `display_cards.rs` -/

/-- `divider` from `display_cards.rs`: writes `ch` exactly `max` times, then a
newline.  The Rust `for _ in 0..max { write!(f, "{}", ch)?; }` loop is the
recursion underlying `List.replicate`. -/
def divider (max : Nat) (ch : Char) : List Char :=
  List.replicate max ch ++ ['\n']

/-- The `while pad.len() + left.len() + right.len() < max { pad += " " }` loop
of `cols`, embedded with explicit state (`p` is the pad built so far) and a
structural fuel.  Each iteration requires `p.length < max`, so starting from
the empty pad the loop performs at most `max` iterations; `fuel = max` is
therefore enough for the fuel never to run out before the guard fails. -/
def colsPadGo : Nat → List Char → Nat → Nat → Nat → List Char
  | 0, p, _, _, _ => p
  | Nat.succ fuel, p, llen, rlen, max =>
    if p.length + llen + rlen < max then colsPadGo fuel (p ++ [' ']) llen rlen max
    else p

/-- `cols` from `display_cards.rs`: writes `{left}{pad}{right}\n` where `pad`
is the space string built by the while loop above. -/
def cols (left right : List Char) (max : Nat) : List Char :=
  left ++ colsPadGo max [] left.length right.length max ++ right ++ ['\n']

/-- The character loop of `wrap` from `display_cards.rs`, with the running
`count` passed explicitly.  A literal newline resets the count; otherwise a
newline is emitted before the character whenever `count % max == 0` (which
holds in particular for the very first character, when `count = 0`). -/
def wrapGo (max : Nat) : List Char → Nat → List Char
  | [], _ => []
  | c :: rest, count =>
    if c = '\n' then c :: wrapGo max rest 0
    else if count % max = 0 then '\n' :: c :: wrapGo max rest (count + 1)
    else c :: wrapGo max rest (count + 1)

/-- `wrap` from `display_cards.rs`: the loop above followed by one final
newline (`write!(f, "\n")` after the loop). -/
def wrap (body : List Char) (max : Nat) : List Char :=
  wrapGo max body 0 ++ ['\n']

/-! ## Spec-side chunking, used to characterise `wrap`'s break positions. -/

/-- Split a list into consecutive blocks: the first block is the head plus the
next `w - 1` elements, and so on.  Structural fuel: every step consumes at
least the head, so `fuel = l.length` suffices. -/
def chunksGo (w : Nat) : Nat → List Char → List (List Char)
  | _, [] => []
  | 0, l => [l]
  | Nat.succ fuel, c :: rest =>
    (c :: rest.take (w - 1)) :: chunksGo w fuel (rest.drop (w - 1))

/-- Split a list into consecutive blocks of size `w` (last possibly short). -/
def chunks (w : Nat) (l : List Char) : List (List Char) :=
  chunksGo w l.length l

/-- Prefix every block with a newline and concatenate. -/
def withBreaks : List (List Char) → List Char
  | [] => []
  | ck :: rest => '\n' :: (ck ++ withBreaks rest)

/-- Concatenate a list of blocks. -/
def joinAll : List (List Char) → List Char
  | [] => []
  | ck :: rest => ck ++ joinAll rest

example : wrap "This is a test".data 5 = "\nThis \nis a \ntest\n".data := by decide
example : cols "l".data "r".data 3 = "l r\n".data := by decide
example : cols "l".data "r".data 0 = "lr\n".data := by decide
example : cols "l".data "r".data 12 = "l          r\n".data := by decide
example : divider 3 '.' = "...\n".data := by decide
example : chunks 2 "abc".data = ["ab".data, "c".data] := by decide
example : withBreaks (chunks 2 "abc".data) = "\nab\nc".data := by decide

/-! ## Closed form of the `cols` padding loop -/

/-- As long as the remaining fuel covers the distance to the guard's bound,
the padding loop extends `p` with spaces up to total content length `max`. -/
theorem colsPadGo_closed (llen rlen max : Nat) :
    ∀ fuel p, max ≤ p.length + llen + rlen + fuel →
      colsPadGo fuel p llen rlen max =
        p ++ List.replicate (max - (p.length + llen + rlen)) ' ' := by
  intro fuel
  induction fuel with
  | zero =>
    intro p hp
    simp only [colsPadGo]
    have h0 : max - (p.length + llen + rlen) = 0 := by omega
    simp [h0]
  | succ fuel ih =>
    intro p hp
    simp only [colsPadGo]
    by_cases hlt : p.length + llen + rlen < max
    · simp only [if_pos hlt]
      have := ih (p ++ [' ']) (by simp; omega)
      rw [this]
      have hk : max - (p.length + llen + rlen) =
          (max - ((p ++ [' ']).length + llen + rlen)) + 1 := by
        simp; omega
      rw [hk, List.replicate_succ, List.append_assoc]
      rfl
    · simp only [if_neg hlt]
      have h0 : max - (p.length + llen + rlen) = 0 := by omega
      simp [h0]

/-- Closed form of `cols`: the pad is exactly `max - (|left| + |right|)`
spaces (truncated at zero). -/
theorem cols_closed (left right : List Char) (max : Nat) :
    cols left right max =
      left ++ List.replicate (max - (left.length + right.length)) ' '
        ++ right ++ ['\n'] := by
  unfold cols
  rw [colsPadGo_closed left.length right.length max max [] (by simp)]
  simp

/-! ## Lemmas about `wrap` -/

/-- `wrapGo` on the empty list is empty, whatever the fuel-free count. -/
theorem wrapGo_nil (max count : Nat) : wrapGo max [] count = [] := rfl

/-- Dropping never lengthens a list. -/
theorem length_drop_le (n : Nat) (l : List Char) : (l.drop n).length ≤ l.length := by
  rw [List.length_drop]
  omega

/-- The wrap loop only inspects `count` through `count % max`. -/
theorem wrapGo_congr_mod (max : Nat) :
    ∀ (l : List Char) (a b : Nat), a % max = b % max →
      wrapGo max l a = wrapGo max l b := by
  intro l
  induction l with
  | nil => intros; rfl
  | cons c rest ih =>
    intro a b hab
    have hsucc : (a + 1) % max = (b + 1) % max := by
      rw [Nat.add_mod, hab, ← Nat.add_mod]
    by_cases hc : c = '\n'
    · simp only [wrapGo, if_pos hc]
    · by_cases ha : a % max = 0
      · have hb : b % max = 0 := by rw [← hab]; exact ha
        simp only [wrapGo, if_neg hc, if_pos ha, if_pos hb]
        rw [ih (a + 1) (b + 1) hsucc]
      · have hb : ¬ b % max = 0 := by rw [← hab]; exact ha
        simp only [wrapGo, if_neg hc, if_neg ha, if_neg hb]
        rw [ih (a + 1) (b + 1) hsucc]

/-- While no character is a newline and no intermediate count is a multiple
of `max`, the loop copies the prefix verbatim and advances the count. -/
theorem wrapGo_run (max : Nat) :
    ∀ (pre l : List Char) (count : Nat), '\n' ∉ pre →
      (∀ i, i < pre.length → (count + i) % max ≠ 0) →
      wrapGo max (pre ++ l) count = pre ++ wrapGo max l (count + pre.length) := by
  intro pre
  induction pre with
  | nil => intro l count _ _; simp
  | cons c pre ih =>
    intro l count hnl h
    have hc : c ≠ '\n' := fun hc => hnl (hc ▸ List.mem_cons_self c pre)
    have h0 : ¬ count % max = 0 := by
      have := h 0 (by simp)
      simpa using this
    simp only [List.cons_append, List.append_eq, wrapGo, if_neg hc, if_neg h0]
    rw [ih l (count + 1) (fun hm => hnl (List.mem_cons_of_mem c hm))
      (fun i hi => by
        have := h (i + 1) (by simpa using Nat.succ_lt_succ hi)
        have harith : count + (i + 1) = count + 1 + i := by omega
        rw [harith] at this
        exact this)]
    have : count + (pre.length + 1) = count + 1 + pre.length := by omega
    simp [this]

/-- `chunksGo` ignores the fuel argument as long as it covers the list. -/
theorem chunksGo_congr (w : Nat) :
    ∀ (f g : Nat) (l : List Char), l.length ≤ f → l.length ≤ g →
      chunksGo w f l = chunksGo w g l := by
  intro f
  induction f with
  | zero =>
    intro g l hf _
    have : l = [] := List.length_eq_zero.mp (Nat.le_zero.mp hf)
    subst this
    cases g <;> rfl
  | succ f ih =>
    intro g l hf hg
    cases l with
    | nil => cases g <;> rfl
    | cons c rest =>
      cases g with
      | zero => simp at hg
      | succ g =>
        simp only [List.length_cons] at hf hg
        simp only [chunksGo]
        rw [ih g (rest.drop (w - 1))
          (le_trans (length_drop_le (w - 1) rest) (by omega))
          (le_trans (length_drop_le (w - 1) rest) (by omega))]

/-- Recursion equation for `chunks`. -/
theorem chunks_cons (w : Nat) (c : Char) (rest : List Char) :
    chunks w (c :: rest) =
      (c :: rest.take (w - 1)) :: chunks w (rest.drop (w - 1)) := by
  unfold chunks
  simp only [List.length_cons, chunksGo]
  rw [chunksGo_congr w rest.length (rest.drop (w - 1)).length (rest.drop (w - 1))
    (length_drop_le (w - 1) rest) (le_refl _)]

/-- The chunks of a list concatenate back to the list. -/
theorem joinAll_chunks (w : Nat) :
    ∀ (n : Nat) (l : List Char), l.length ≤ n → joinAll (chunks w l) = l := by
  intro n
  induction n with
  | zero =>
    intro l hl
    have : l = [] := List.length_eq_zero.mp (Nat.le_zero.mp hl)
    subst this; rfl
  | succ n ih =>
    intro l hl
    cases l with
    | nil => rfl
    | cons c rest =>
      simp only [List.length_cons] at hl
      rw [chunks_cons]
      simp only [joinAll]
      rw [ih (rest.drop (w - 1)) (le_trans (length_drop_le (w - 1) rest) (by omega))]
      simp

/-- Every chunk is non-empty, at most `w` long, and exactly `w` long unless
it is the last one. -/
theorem chunks_block_shape (w : Nat) (hw : 1 ≤ w) :
    ∀ (n : Nat) (l : List Char), l.length ≤ n →
      ∀ pre ck post, chunks w l = pre ++ ck :: post →
        ck ≠ [] ∧ ck.length ≤ w ∧ (post ≠ [] → ck.length = w) := by
  intro n
  induction n with
  | zero =>
    intro l hl pre ck post hchunks
    have : l = [] := List.length_eq_zero.mp (Nat.le_zero.mp hl)
    subst this
    simp [chunks, chunksGo] at hchunks
  | succ n ih =>
    intro l hl pre ck post hchunks
    cases l with
    | nil => simp [chunks, chunksGo] at hchunks
    | cons c rest =>
      rw [chunks_cons] at hchunks
      cases pre with
      | nil =>
        simp only [List.nil_append, List.cons.injEq] at hchunks
        obtain ⟨hck, hpost⟩ := hchunks
        subst hck
        refine ⟨by simp, ?_, ?_⟩
        · simp only [List.length_cons, List.length_take]
          omega
        · intro hpost_ne
          have hdrop : rest.drop (w - 1) ≠ [] := by
            intro hd
            rw [hd] at hpost
            simp [chunks, chunksGo] at hpost
            exact hpost_ne hpost
          have : w - 1 < rest.length := by
            by_contra hcon
            exact hdrop (List.drop_eq_nil_of_le (by omega))
          simp only [List.length_cons, List.length_take]
          omega
      | cons p pre =>
        simp only [List.length_cons] at hl
        simp only [List.cons_append, List.cons.injEq] at hchunks
        exact ih (rest.drop (w - 1))
          (le_trans (length_drop_le (w - 1) rest) (by omega))
          pre ck post hchunks.2

/-- Core characterisation: on newline-free input, the wrap loop started at
count `0` emits exactly the `w`-chunks of the input, each preceded by one
inserted newline. -/
theorem wrapGo_chunks (max : Nat) (hmax : 1 ≤ max) :
    ∀ (n : Nat) (l : List Char), l.length ≤ n → '\n' ∉ l →
      wrapGo max l 0 = withBreaks (chunks max l) := by
  intro n
  induction n with
  | zero =>
    intro l hl _
    have : l = [] := List.length_eq_zero.mp (Nat.le_zero.mp hl)
    subst this; rfl
  | succ n ih =>
    intro l hl hnl
    cases l with
    | nil => rfl
    | cons c rest =>
      have hc : c ≠ '\n' := fun hc => hnl (hc ▸ List.mem_cons_self c rest)
      have hrest_nl : '\n' ∉ rest := fun hm => hnl (List.mem_cons_of_mem c hm)
      simp only [wrapGo, if_neg hc, Nat.zero_mod, if_pos rfl]
      have hsplit : rest = rest.take (max - 1) ++ rest.drop (max - 1) :=
        (List.take_append_drop (max - 1) rest).symm
      have htake_nl : '\n' ∉ rest.take (max - 1) := fun hm =>
        hrest_nl (List.mem_of_mem_take hm)
      have hrun : wrapGo max rest 1 =
          rest.take (max - 1) ++
            wrapGo max (rest.drop (max - 1)) (1 + (rest.take (max - 1)).length) := by
        conv_lhs => rw [hsplit]
        exact wrapGo_run max (rest.take (max - 1)) (rest.drop (max - 1)) 1 htake_nl
          (fun i hi => by
            have hlen : (rest.take (max - 1)).length ≤ max - 1 := by
              simp [List.length_take]
            have hlt : 1 + i < max := by omega
            rw [Nat.mod_eq_of_lt hlt]
            omega)
      have hreset : wrapGo max (rest.drop (max - 1)) (1 + (rest.take (max - 1)).length) =
          wrapGo max (rest.drop (max - 1)) 0 := by
        rcases Decidable.em (rest.drop (max - 1) = []) with hnil | hne
        · rw [hnil, wrapGo_nil, wrapGo_nil]
        · have htl : max - 1 ≤ rest.length := by
            by_contra hcon
            exact hne (List.drop_eq_nil_of_le (by omega))
          have hcount : 1 + (rest.take (max - 1)).length = max := by
            rw [List.length_take]
            omega
          rw [hcount]
          exact wrapGo_congr_mod max _ max 0 (by simp)
      have hl' : rest.length ≤ n := by
        simp only [List.length_cons] at hl
        omega
      have hdrop_le : (rest.drop (max - 1)).length ≤ n :=
        le_trans (length_drop_le (max - 1) rest) hl'
      have hdrop_nl : '\n' ∉ rest.drop (max - 1) := fun hm =>
        hrest_nl (List.mem_of_mem_drop hm)
      rw [hrun, hreset, ih (rest.drop (max - 1)) hdrop_le hdrop_nl, chunks_cons]
      simp [withBreaks]

/-- C1 (corrected): on non-empty newline-free text at width `w ≥ 1`, `wrap`
inserts a newline before every character whose 0-based position is a multiple
of `w` — including position 0, so the output begins with an inserted break —
and appends one final newline.  Equivalently, the output is the `w`-chunking
of the text with each chunk preceded by a newline, followed by a trailing
newline; chunks are non-empty, at most `w` long, and exactly `w` long except
possibly the last. -/
theorem wrap_breaks_every_w (body : List Char) (w : Nat)
    (_hne : body ≠ []) (hnl : '\n' ∉ body) (hw : 1 ≤ w) :
    wrap body w = withBreaks (chunks w body) ++ ['\n'] ∧
    joinAll (chunks w body) = body ∧
    (∀ pre ck post, chunks w body = pre ++ ck :: post →
      ck ≠ [] ∧ ck.length ≤ w ∧ (post ≠ [] → ck.length = w)) := by
  refine ⟨?_, ?_, ?_⟩
  · unfold wrap
    rw [wrapGo_chunks w hw body.length body (le_refl _) hnl]
  · exact joinAll_chunks w body.length body (le_refl _)
  · exact chunks_block_shape w hw body.length body (le_refl _)

/-- Witness for `wrap_breaks_every_w` at `body = "abc"`, `w = 2`. -/
theorem wrap_breaks_every_w_witness :
    wrap "abc".data 2 = withBreaks (chunks 2 "abc".data) ++ ['\n'] :=
  (wrap_breaks_every_w "abc".data 2 (by decide) (by decide) (by decide)).1

/-- C1 (counterexample): the claim "no break is inserted before the first
character" fails — on text `"a"` at width 1 the output begins with an
inserted newline, not with the text's first character. -/
theorem wrap_breaks_before_first_char :
    wrap "a".data 1 = ['\n', 'a', '\n'] ∧ (wrap "a".data 1).head? ≠ some 'a' := by
  decide

/-- The wrap loop neither drops, duplicates, nor alters non-newline
characters: filtering newlines out of its output recovers the filtered
input. -/
theorem wrapGo_filter (max : Nat) :
    ∀ (l : List Char) (count : Nat),
      (wrapGo max l count).filter (fun c => c != '\n') =
        l.filter (fun c => c != '\n') := by
  intro l
  induction l with
  | nil => intro count; rfl
  | cons c rest ih =>
    intro count
    by_cases hc : c = '\n'
    · simp only [wrapGo, if_pos hc, List.filter_cons]
      subst hc
      simpa using ih 0
    · by_cases h0 : count % max = 0
      · simp only [wrapGo, if_neg hc, if_pos h0, List.filter_cons]
        have : ('\n' != '\n') = false := by decide
        simp [this, hc, ih (count + 1)]
      · simp only [wrapGo, if_neg hc, if_neg h0, List.filter_cons]
        simp [hc, ih (count + 1)]

/-- C2 (confirmed): for newline-free text and width `w ≥ 1`, removing all
newline characters from `wrap`'s output yields exactly the original text. -/
theorem wrap_content_preserving (body : List Char) (w : Nat)
    (hnl : '\n' ∉ body) (_hw : 1 ≤ w) :
    (wrap body w).filter (fun c => c != '\n') = body := by
  unfold wrap
  rw [List.filter_append, wrapGo_filter]
  have h2 : List.filter (fun c => c != '\n') ['\n'] = [] := by decide
  rw [h2, List.append_nil]
  exact List.filter_eq_self.mpr (fun a ha => by
    simp only [bne_iff_ne, ne_eq, decide_eq_true_eq]
    intro hcon
    exact hnl (hcon ▸ ha))

/-- Witness for `wrap_content_preserving` at `body = "This is a test"`,
`w = 5`. -/
theorem wrap_content_preserving_witness :
    (wrap "This is a test".data 5).filter (fun c => c != '\n') =
      "This is a test".data :=
  wrap_content_preserving "This is a test".data 5 (by decide) (by decide)

/-! ## Claims about `cols` -/

/-- C3 (counterexample): when `len(left) + len(right) + 1 > w` the padding
loop never runs, so no space at all is inserted between the columns: with
`left = "l"`, `right = "r"`, `w = 2` the row is `"lr\n"`, which contains no
space. -/
theorem cols_no_space_on_overflow :
    cols "l".data "r".data 2 = ['l', 'r', '\n'] ∧
    ' ' ∉ cols "l".data "r".data 2 := by
  decide

/-- C3 (corrected): `cols` inserts at least one padding space exactly when
`len(left) + len(right) + 1 ≤ w`; when `len(left) + len(right) + 1 > w` it
inserts no padding at all and the row is `left` immediately followed by
`right`. -/
theorem cols_padding_space (left right : List Char) (w : Nat) :
    (left.length + right.length + 1 ≤ w →
      ∃ k, 1 ≤ k ∧
        cols left right w = left ++ List.replicate k ' ' ++ right ++ ['\n']) ∧
    (w < left.length + right.length + 1 →
      cols left right w = left ++ right ++ ['\n']) := by
  constructor
  · intro h
    exact ⟨w - (left.length + right.length), by omega, by rw [cols_closed]⟩
  · intro h
    rw [cols_closed]
    have h0 : w - (left.length + right.length) = 0 := by omega
    simp [h0]

/-- Witness for `cols_padding_space`: both branches at concrete inputs. -/
theorem cols_padding_space_witness :
    (∃ k, 1 ≤ k ∧
      cols "l".data "r".data 4 =
        "l".data ++ List.replicate k ' ' ++ "r".data ++ ['\n']) ∧
    cols "lef".data "rig".data 3 = "lef".data ++ "rig".data ++ ['\n'] :=
  ⟨(cols_padding_space "l".data "r".data 4).1 (by decide),
   (cols_padding_space "lef".data "rig".data 3).2 (by decide)⟩

/-- C4 (confirmed): if `len(left) + len(right) + 1 ≤ w` the row (before its
terminating newline) is `left`, then `k ≥ 1` spaces, then `right`, with total
length exactly `w`; if `len(left) + len(right) + 1 > w` no padding is added
and the row is exactly `left ++ right`. -/
theorem cols_row_spec (left right : List Char) (w : Nat) :
    (left.length + right.length + 1 ≤ w →
      ∃ k, 1 ≤ k ∧ left.length + k + right.length = w ∧
        cols left right w = left ++ List.replicate k ' ' ++ right ++ ['\n']) ∧
    (w < left.length + right.length + 1 →
      cols left right w = left ++ right ++ ['\n']) := by
  constructor
  · intro h
    refine ⟨w - (left.length + right.length), by omega, by omega, ?_⟩
    rw [cols_closed]
  · intro h
    rw [cols_closed]
    have h0 : w - (left.length + right.length) = 0 := by omega
    simp [h0]

/-- Witness for `cols_row_spec`: both branches at concrete inputs. -/
theorem cols_row_spec_witness :
    (∃ k, 1 ≤ k ∧ "ab".data.length + k + "c".data.length = 6 ∧
      cols "ab".data "c".data 6 =
        "ab".data ++ List.replicate k ' ' ++ "c".data ++ ['\n']) ∧
    cols "abcd".data "efg".data 5 = "abcd".data ++ "efg".data ++ ['\n'] :=
  ⟨(cols_row_spec "ab".data "c".data 6).1 (by decide),
   (cols_row_spec "abcd".data "efg".data 5).2 (by decide)⟩

/-! ## `mtg_api/src/lib.rs`: errors, URL construction, empty-body check -/

instance {ε α : Type} [DecidableEq ε] [DecidableEq α] : DecidableEq (Except ε α) :=
  fun x y =>
    match x, y with
    | Except.ok a, Except.ok b =>
      if h : a = b then isTrue (h ▸ rfl)
      else isFalse (fun hc => h (Except.ok.inj hc))
    | Except.error a, Except.error b =>
      if h : a = b then isTrue (h ▸ rfl)
      else isFalse (fun hc => h (Except.error.inj hc))
    | Except.ok _, Except.error _ => isFalse (fun hc => Except.noConfusion hc)
    | Except.error _, Except.ok _ => isFalse (fun hc => Except.noConfusion hc)

/-- `APIError` from `mtg_api/src/lib.rs`.  Status codes are modelled as the
numeric value of `reqwest::StatusCode`. -/
inductive APIError where
  | FailedRequest (status : Nat)
  | WrappedReqwest (e : String)
  | NoSuchCardName (name : String)
deriving DecidableEq, Repr

/-- The constant `CARDS_URL` from `mtg_api/src/lib.rs`. -/
def CARDS_URL : String := "https://api.magicthegathering.io/v1/cards"

/-- `card_id_info`'s URL: `format!("{}/{}", CARDS_URL, card_id)`.  (Only the
URL construction is modelled; the network GET is outside the embedding.) -/
def card_id_url (card_id : String) : String :=
  CARDS_URL ++ "/" ++ card_id

/-- `card_exact_name_info`'s URL: `format!("{}?name=\"{}\"", CARDS_URL,
card_name)`. -/
def card_exact_name_url (card_name : String) : String :=
  CARDS_URL ++ "?name=\"" ++ card_name ++ "\""

/-- `card_page`'s URL: `format!("{}?page={}", CARDS_URL, page_number)`. -/
def card_page_url (page_number : String) : String :=
  CARDS_URL ++ "?page=" ++ page_number

/-- `check_for_empty` from `mtg_api/src/lib.rs`, taking the response body
already read to text (`res.text().await?` precedes the comparison; a body
that reads successfully can no longer fail, hence the two `Ok` outcomes of
the source's `Result<Option<String>, APIError>`). -/
def check_for_empty (text : String) : Except APIError (Option String) :=
  if text = "\x7b\"cards\":[]\x7d" then Except.ok none
  else Except.ok (some text)

/-! ## `mtg_cards/src/lib.rs`: errors, `Card`, wrappers, rendering -/

/-- `MTGCardError` from `mtg_cards/src/lib.rs`. -/
inductive MTGCardError where
  | WrappedAPI (e : APIError)
  | WrappedSerde (e : String)
  | NoCardError
deriving DecidableEq, Repr

/-- The `Card` struct from `mtg_cards/src/lib.rs` (the `type` JSON key is
renamed to `type_field` in the source to avoid the reserved word). -/
structure Card where
  name : String
  mana_cost : String
  type_field : String
  rarity : String
  set_name : String
  text : String
  flavor : String
deriving DecidableEq, Repr

/-- The semantics of `Card`'s serde derive for a card JSON object: the object
is a partial map from external key names to string values; with struct-level
`#[serde(default)]` every absent field takes `String::default()` (the empty
string), `#[serde(rename_all = "camelCase")]` maps `mana_cost`/`set_name` to
`manaCost`/`setName`, and `#[serde(rename = "type")]` maps `type_field` to
`type`. -/
def Card.fromObject (o : String → Option String) : Card where
  name := (o "name").getD ""
  mana_cost := (o "manaCost").getD ""
  type_field := (o "type").getD ""
  rarity := (o "rarity").getD ""
  set_name := (o "setName").getD ""
  text := (o "text").getD ""
  flavor := (o "flavor").getD ""

/-- `MultiCards` from `mtg_cards/src/lib.rs`. -/
structure MultiCards where
  cards : List Card
deriving DecidableEq, Repr

/-- `IndiCard` from `mtg_cards/src/lib.rs`. -/
structure IndiCard where
  card : Card
deriving DecidableEq, Repr

/-- `MultiCards::from_response`: run `check_for_empty`, propagating its error
through the `From<mtg_api::APIError>` conversion (`?`); `None` becomes
`NoCardError`; `Some(json)` is deserialized.  `parse` abstracts the external
`serde_json::from_str::<MultiCards>`, whose failure is wrapped by
`From<serde_json::Error>` into `WrappedSerde`. -/
def MultiCards.from_response (parse : String → Except String MultiCards)
    (body : String) : Except MTGCardError MultiCards :=
  match check_for_empty body with
  | Except.error e => Except.error (MTGCardError.WrappedAPI e)
  | Except.ok none => Except.error MTGCardError.NoCardError
  | Except.ok (some json) =>
    match parse json with
    | Except.error e => Except.error (MTGCardError.WrappedSerde e)
    | Except.ok v => Except.ok v

/-- `IndiCard::from_response`, same shape as `MultiCards::from_response` with
`parse` abstracting `serde_json::from_str::<IndiCard>`. -/
def IndiCard.from_response (parse : String → Except String IndiCard)
    (body : String) : Except MTGCardError IndiCard :=
  match check_for_empty body with
  | Except.error e => Except.error (MTGCardError.WrappedAPI e)
  | Except.ok none => Except.error MTGCardError.NoCardError
  | Except.ok (some json) =>
    match parse json with
    | Except.error e => Except.error (MTGCardError.WrappedSerde e)
    | Except.ok v => Except.ok v

/-- The `fmt::Display` impl for `Card` (`maxl = 50`).  The `colored` crate's
`.italic()` on the flavor text is invisible here: `wrap` receives the
`ColoredString` through `Deref<Target = str>`, which yields the unstyled
input characters, so the rendered characters are the plain flavor text. -/
def Card.render (c : Card) : List Char :=
  divider 50 '*' ++
  cols c.name.data c.mana_cost.data 50 ++
  divider 50 '-' ++
  cols c.type_field.data c.rarity.data 50 ++
  divider 50 '-' ++
  wrap c.text.data 50 ++
  wrap c.flavor.data 50 ++
  cols [] c.set_name.data 50 ++
  divider 50 '*'

/-! ## `mtg_cards/src/header_cards.rs`: header extraction -/

/-- `MTGHeaderError` from `header_cards.rs`. -/
inductive MTGHeaderError where
  | ItemMissing (n : String)
  | Conversion (e : String)
deriving DecidableEq, Repr

/-- `MTGHeader` from `header_cards.rs`. -/
structure MTGHeader where
  link : String
  page_size : Nat
  count : Nat
  total_count : Nat
  ratelimit_limit : Nat
  ratelimit_remaining : Nat
deriving DecidableEq, Repr

/-- `MTGHeader::get_field`: look the header up by name; missing gives
`ItemMissing` with the field name.  Header values are modelled as already
UTF-8-decoded strings, so the `to_str` step (whose failure would become a
`Conversion` error) always succeeds here. -/
def get_field (headers : String → Option String) (item : String) :
    Except MTGHeaderError String :=
  match headers item with
  | none => Except.error (MTGHeaderError.ItemMissing item)
  | some v => Except.ok v

/-- Strip the single optional leading sign Rust's unsigned parser accepts. -/
def rustStripPlus : List Char → List Char
  | '+' :: rest => rest
  | l => l

/-- Rust's `str::parse::<usize>` (on a 64-bit target): an optional leading
`+`, then one or more ASCII digits, no other characters, value below
`2 ^ 64`; a `ParseIntError` is wrapped into `Conversion` by the `From`
impl in `header_cards.rs`. -/
def rustParseUsize (s : String) : Except MTGHeaderError Nat :=
  if s.data.isEmpty then
    Except.error (MTGHeaderError.Conversion "cannot parse integer from empty string")
  else
    let digits := rustStripPlus s.data
    if digits.isEmpty then
      Except.error (MTGHeaderError.Conversion "invalid digit found in string")
    else if digits.all (fun c => c.isDigit) then
      let v := digits.foldl (fun acc c => acc * 10 + (c.toNat - 48)) 0
      if v < 2 ^ 64 then Except.ok v
      else Except.error (MTGHeaderError.Conversion "number too large to fit in target type")
    else Except.error (MTGHeaderError.Conversion "invalid digit found in string")

/-- `MTGHeader::from_response`: the six `get_field` / `parse` steps in source
order, each aborting the construction on its first failure (`?`). -/
def MTGHeader.from_response (headers : String → Option String) :
    Except MTGHeaderError MTGHeader := do
  let link ← get_field headers "Link"
  let page_size_s ← get_field headers "Page-Size"
  let page_size ← rustParseUsize page_size_s
  let count_s ← get_field headers "Count"
  let count ← rustParseUsize count_s
  let total_count_s ← get_field headers "Total-Count"
  let total_count ← rustParseUsize total_count_s
  let ratelimit_limit_s ← get_field headers "Ratelimit-Limit"
  let ratelimit_limit ← rustParseUsize ratelimit_limit_s
  let ratelimit_remaining_s ← get_field headers "Ratelimit-Remaining"
  let ratelimit_remaining ← rustParseUsize ratelimit_remaining_s
  pure { link := link, page_size := page_size, count := count,
         total_count := total_count, ratelimit_limit := ratelimit_limit,
         ratelimit_remaining := ratelimit_remaining }

example : rustParseUsize "93643" = Except.ok 93643 := by decide
example : rustParseUsize "+12" = Except.ok 12 := by decide
example : (rustParseUsize " 12 ").isOk = false := by decide
example : check_for_empty "\x7b\"cards\":[]\x7d" = Except.ok none := by decide

/-! ## Claims about the empty-result sentinel -/

/-- C5 (confirmed): on the literal body `{"cards":[]}` both record-mapper
paths return `NoCardError` — for every possible behaviour of the underlying
JSON parser, since that branch is never reached — while `check_for_empty`
itself classifies the body as empty without an error. -/
theorem empty_sentinel_not_found :
    (∀ parse : String → Except String MultiCards,
      MultiCards.from_response parse "\x7b\"cards\":[]\x7d" =
        Except.error MTGCardError.NoCardError) ∧
    (∀ parse : String → Except String IndiCard,
      IndiCard.from_response parse "\x7b\"cards\":[]\x7d" =
        Except.error MTGCardError.NoCardError) ∧
    check_for_empty "\x7b\"cards\":[]\x7d" = Except.ok none := by
  have h : check_for_empty "\x7b\"cards\":[]\x7d" = Except.ok none := by decide
  refine ⟨fun parse => ?_, fun parse => ?_, h⟩
  · unfold MultiCards.from_response
    rw [h]
  · unfold IndiCard.from_response
    rw [h]

/-- C10 (confirmed): `check_for_empty` yields the empty classification iff
the body is byte-for-byte the literal `{"cards":[]}`; any other body — for
instance the whitespace variant — is returned completely unchanged. -/
theorem check_for_empty_exact (t : String) :
    (check_for_empty t = Except.ok none ↔ t = "\x7b\"cards\":[]\x7d") ∧
    (t ≠ "\x7b\"cards\":[]\x7d" → check_for_empty t = Except.ok (some t)) := by
  refine ⟨⟨?_, ?_⟩, ?_⟩
  · intro h
    by_contra hne
    unfold check_for_empty at h
    rw [if_neg hne] at h
    exact Option.noConfusion (Except.ok.inj h)
  · intro h
    subst h
    decide
  · intro h
    unfold check_for_empty
    rw [if_neg h]

/-- Witness for `check_for_empty_exact`: the whitespace variant
`{"cards": []}` is not the sentinel and passes through unchanged. -/
theorem check_for_empty_exact_witness :
    check_for_empty "\x7b\"cards\": []\x7d" = Except.ok (some "\x7b\"cards\": []\x7d") :=
  (check_for_empty_exact "\x7b\"cards\": []\x7d").2 (by decide)

/-! ## Claim about URL construction -/

/-- `String.append` concatenates the character data. -/
theorem string_data_append (s t : String) : (s ++ t).data = s.data ++ t.data := rfl

/-- C9 (confirmed): the three request URLs are the fixed base endpoint with,
respectively, `/{id}` appended to the path, `?name="{name}"` appended with
the name wrapped in literal double-quote characters and its own characters
unescaped, and `?page={n}` appended. -/
theorem request_url_shapes (id name page : String) :
    (card_id_url id).data = CARDS_URL.data ++ '/' :: id.data ∧
    (card_exact_name_url name).data =
      CARDS_URL.data ++ "?name=".data ++ '"' :: (name.data ++ ['"']) ∧
    (card_page_url page).data = CARDS_URL.data ++ "?page=".data ++ page.data := by
  have h1 : "/".data = ['/'] := by decide
  have h2 : "?name=\"".data = "?name=".data ++ ['"'] := by decide
  have h3 : "\"".data = ['"'] := by decide
  refine ⟨?_, ?_, ?_⟩
  · unfold card_id_url
    rw [string_data_append, string_data_append, h1]
    simp
  · unfold card_exact_name_url
    rw [string_data_append, string_data_append, string_data_append, h2, h3]
    simp
  · unfold card_page_url
    rw [string_data_append, string_data_append]

/-! ## Claim about header extraction -/

/-- C6 (confirmed): (a) with `Link`, `Page-Size` and `Count` present and the
numeric ones parseable, a header set lacking `Total-Count` makes extraction
fail with `ItemMissing "Total-Count"`, not a `Conversion` error; (b) no
partial snapshot exists: a successful extraction pins every one of the six
fields to a present (and, where numeric, parseable) header. -/
theorem header_extraction_spec :
    (∀ (headers : String → Option String) (l ps c : String) (nps nc : Nat),
      headers "Link" = some l →
      headers "Page-Size" = some ps → rustParseUsize ps = Except.ok nps →
      headers "Count" = some c → rustParseUsize c = Except.ok nc →
      headers "Total-Count" = none →
      MTGHeader.from_response headers =
        Except.error (MTGHeaderError.ItemMissing "Total-Count")) ∧
    (∀ (headers : String → Option String) (h : MTGHeader),
      MTGHeader.from_response headers = Except.ok h →
      headers "Link" = some h.link ∧
      (∃ s, headers "Page-Size" = some s ∧
        rustParseUsize s = Except.ok h.page_size) ∧
      (∃ s, headers "Count" = some s ∧ rustParseUsize s = Except.ok h.count) ∧
      (∃ s, headers "Total-Count" = some s ∧
        rustParseUsize s = Except.ok h.total_count) ∧
      (∃ s, headers "Ratelimit-Limit" = some s ∧
        rustParseUsize s = Except.ok h.ratelimit_limit) ∧
      (∃ s, headers "Ratelimit-Remaining" = some s ∧
        rustParseUsize s = Except.ok h.ratelimit_remaining)) := by
  constructor
  · intro headers l ps c nps nc hL hPS hpPS hC hpC hTC
    unfold MTGHeader.from_response
    simp only [get_field, hL, hPS, hC, hTC, bind, Except.bind, hpPS, hpC]
  · intro headers h hok
    unfold MTGHeader.from_response at hok
    simp only [get_field, bind, Except.bind] at hok
    cases hL : headers "Link" with
    | none => simp [hL] at hok
    | some l =>
    simp only [hL] at hok
    cases hPS : headers "Page-Size" with
    | none => simp [hPS] at hok
    | some ps =>
    simp only [hPS] at hok
    cases hpPS : rustParseUsize ps with
    | error e => simp [hpPS] at hok
    | ok nps =>
    simp only [hpPS] at hok
    cases hC : headers "Count" with
    | none => simp [hC] at hok
    | some c =>
    simp only [hC] at hok
    cases hpC : rustParseUsize c with
    | error e => simp [hpC] at hok
    | ok nc =>
    simp only [hpC] at hok
    cases hTC : headers "Total-Count" with
    | none => simp [hTC] at hok
    | some tc =>
    simp only [hTC] at hok
    cases hpTC : rustParseUsize tc with
    | error e => simp [hpTC] at hok
    | ok ntc =>
    simp only [hpTC] at hok
    cases hRL : headers "Ratelimit-Limit" with
    | none => simp [hRL] at hok
    | some rl =>
    simp only [hRL] at hok
    cases hpRL : rustParseUsize rl with
    | error e => simp [hpRL] at hok
    | ok nrl =>
    simp only [hpRL] at hok
    cases hRR : headers "Ratelimit-Remaining" with
    | none => simp [hRR] at hok
    | some rr =>
    simp only [hRR] at hok
    cases hpRR : rustParseUsize rr with
    | error e => simp [hpRR] at hok
    | ok nrr =>
    simp only [hpRR] at hok
    simp only [pure, Except.pure] at hok
    have hinj := Except.ok.inj hok
    rw [← hinj]
    exact ⟨rfl, ⟨ps, rfl, hpPS⟩, ⟨c, rfl, hpC⟩, ⟨tc, rfl, hpTC⟩,
      ⟨rl, rfl, hpRL⟩, ⟨rr, rfl, hpRR⟩⟩

/-- A header set missing `Total-Count` but carrying the earlier fields. -/
def sampleHeaders : String → Option String := fun s =>
  if s = "Link" then some "<https://api.magicthegathering.io/v1/cards?page=2>"
  else if s = "Page-Size" then some "100"
  else if s = "Count" then some "100"
  else none

/-- Witness for `header_extraction_spec` on `sampleHeaders`. -/
theorem header_extraction_spec_witness :
    MTGHeader.from_response sampleHeaders =
      Except.error (MTGHeaderError.ItemMissing "Total-Count") :=
  header_extraction_spec.1 sampleHeaders
    "<https://api.magicthegathering.io/v1/cards?page=2>" "100" "100" 100 100
    (by decide) (by decide) (by decide) (by decide) (by decide) (by decide)

/-! ## Claim about serde defaults on `Card` -/

/-- Overriding an absent key with `some ""` does not change the defaulted
lookup of any key. -/
theorem getD_override (o : String → Option String) (k key : String)
    (hk : o k = none) :
    ((if key = k then some "" else o key).getD "") = (o key).getD "" := by
  by_cases h : key = k
  · subst h
    rw [if_pos rfl, hk]
    rfl
  · rw [if_neg h]

/-- C7 (confirmed): every field absent from the card JSON object receives
the empty string, and adding an absent key bound to the empty string leaves
the deserialized record unchanged (absence and empty value are
indistinguishable). -/
theorem card_serde_defaults (o : String → Option String) :
    ((o "name" = none → (Card.fromObject o).name = "") ∧
     (o "manaCost" = none → (Card.fromObject o).mana_cost = "") ∧
     (o "type" = none → (Card.fromObject o).type_field = "") ∧
     (o "rarity" = none → (Card.fromObject o).rarity = "") ∧
     (o "setName" = none → (Card.fromObject o).set_name = "") ∧
     (o "text" = none → (Card.fromObject o).text = "") ∧
     (o "flavor" = none → (Card.fromObject o).flavor = "")) ∧
    (∀ k : String, o k = none →
      Card.fromObject (fun s => if s = k then some "" else o s) =
        Card.fromObject o) := by
  constructor
  · exact ⟨fun h => by simp [Card.fromObject, h],
      fun h => by simp [Card.fromObject, h],
      fun h => by simp [Card.fromObject, h],
      fun h => by simp [Card.fromObject, h],
      fun h => by simp [Card.fromObject, h],
      fun h => by simp [Card.fromObject, h],
      fun h => by simp [Card.fromObject, h]⟩
  · intro k hk
    simp only [Card.fromObject, Card.mk.injEq]
    exact ⟨getD_override o k "name" hk, getD_override o k "manaCost" hk,
      getD_override o k "type" hk, getD_override o k "rarity" hk,
      getD_override o k "setName" hk, getD_override o k "text" hk,
      getD_override o k "flavor" hk⟩

/-- A card JSON object carrying only a `name` key. -/
def sampleCardObject : String → Option String := fun s =>
  if s = "name" then some "Narset, Enlightened Master" else none

/-- Witness for `card_serde_defaults` on `sampleCardObject` and the `flavor`
key. -/
theorem card_serde_defaults_witness :
    (Card.fromObject sampleCardObject).flavor = "" ∧
    Card.fromObject (fun s => if s = "flavor" then some "" else sampleCardObject s) =
      Card.fromObject sampleCardObject :=
  ⟨(card_serde_defaults sampleCardObject).1.2.2.2.2.2.2 (by decide),
   (card_serde_defaults sampleCardObject).2 "flavor" (by decide)⟩

/-! ## Claim about the fixed-width card rendering -/

/-- The all-placeholder card of the `display_card` test in
`mtg_cards/src/lib.rs`. -/
def placeholderCard : Card where
  name := "name"
  mana_cost := "mana"
  type_field := "type"
  rarity := "rarity"
  set_name := "set"
  text := "body"
  flavor := "flavour"

/-- The expected rendering asserted by the `display_card` test: no blank
line between the second `-` divider and the rules text, nor between the
rules text and the flavor text. -/
def displayCardExpected : String := "**************************************************\nname                                          mana\n--------------------------------------------------\ntype                                        rarity\n--------------------------------------------------\nbody\nflavour\n                                               set\n**************************************************\n"

/-- What the `Display` impl actually produces: `wrap` emits a newline before
its first character, so an empty line precedes both the rules text and the
flavor text. -/
def displayCardActual : String := "**************************************************\nname                                          mana\n--------------------------------------------------\ntype                                        rarity\n--------------------------------------------------\n\nbody\n\nflavour\n                                               set\n**************************************************\n"

set_option maxRecDepth 4000 in
/-- C8 (code bug): rendering the placeholder card does not produce the
string the repository's own `display_card` test asserts; the actual output
contains an extra empty line before the rules text and before the flavor
text, because `wrap` inserts a break before character 0. -/
theorem render_placeholder_card :
    placeholderCard.render = displayCardActual.data ∧
    placeholderCard.render ≠ displayCardExpected.data := by
  constructor
  · decide
  · decide

end MagicRust
